import Mathlib

/-!
# RapidCLI configuration-instantiation engine: a shallow embedding

This file embeds the configuration core of the RapidCLI repository
(`rapidcli/app_loader.py`, `rapidcli/config_registrar.py`, `rapidcli/utils.py`)
as executable Lean definitions and proves the frozen claims about it.

Conventions of the embedding:
* A parsed YAML document is a `Yaml` tree (maps keep document order, as Python
  dicts do).
* A Python `Config` instance is a `CVal.node ty attrs`: `ty` names the registry
  key whose class the instance was constructed from (`none` for a bare generic
  `Config()`), and `attrs` is the insertion-ordered attribute dictionary.
* A Python exception that escapes the instantiation engine is modelled by
  `Option`: `none` means the call raised.
-/

namespace RapidCLI

/-- A parsed YAML/JSON value, the input shape of the instantiation engine.
Mappings are association lists in document order (Python `dict` preserves
insertion order). Numbers are modelled as integers; floats play no role in any
claim. -/
inductive Yaml where
  | ynull
  | ystr (s : String)
  | yint (n : Int)
  | ybool (b : Bool)
  | ylist (xs : List Yaml)
  | ymap (kvs : List (String × Yaml))
deriving Repr, BEq

/-- A value stored in a `Config` attribute slot after instantiation:
either a raw Python value taken unchanged from the source document
(scalars, and raw lists passed through), a single `Config` instance
(`node`), or a list of `Config` instances built from a sequence (`nodes`). -/
inductive CVal where
  | raw (y : Yaml)
  | node (ty : Option String) (attrs : List (String × CVal))
  | nodes (xs : List CVal)
deriving Repr, BEq

/-- A registered config class: its Python `__name__` and the attributes its
`__init__` presets on a fresh instance (e.g. `SearchConfig.__init__` sets
`value_name = None`). -/
structure PyClass where
  pyName : String
  initAttrs : List (String × CVal) := []
deriving Repr, BEq

/-- The process-wide `config_registry` dict: registry key → class, with
Python-dict update semantics (later registration under the same key replaces
the entry, in place). -/
abbrev Registry := List (String × PyClass)

/-- Association-list lookup mirroring Python `dict.get` / `key in dict`. -/
def lookupReg : Registry → String → Option PyClass
  | [], _ => none
  | (k, c) :: rest, name => if k = name then some c else lookupReg rest name

/-- `setattr` on a `Config` instance: overwriting an existing attribute keeps
its position, a new attribute is appended — exactly Python-dict insertion
order. -/
def setAttr (attrs : List (String × CVal)) (k : String) (v : CVal) :
    List (String × CVal) :=
  if attrs.any (fun p => p.1 = k) then
    attrs.map (fun p => if p.1 = k then (k, v) else p)
  else attrs ++ [(k, v)]

/-- Dict-update on the registry (used by the registration wrapper). -/
def setReg (reg : Registry) (k : String) (c : PyClass) : Registry :=
  if reg.any (fun p => p.1 = k) then
    reg.map (fun p => if p.1 = k then (k, c) else p)
  else reg ++ [(k, c)]

/-- Attribute lookup on an instantiated node (Python `getattr` hitting the
instance `__dict__`). -/
def lookupAttr : List (String × CVal) → String → Option CVal
  | [], _ => none
  | (k, v) :: rest, name => if k = name then some v else lookupAttr rest name

/-! ## String utilities (`rapidcli/utils.py`)

The Python code works with slices from the right (`s[-3:]`, `s[:-1]`); the
embedding uses character-list helpers (`ends_with`, `drop_right`, `to_lower`)
defined below so that every function evaluates by plain reduction. -/

/-- `s` ends with `suffix` (Python `s[-n:] == suffix`). -/
def ends_with (s suffix : String) : Bool :=
  List.isSuffixOf suffix.data s.data

/-- Python `s[:-n]` for `n ≥ 0` (clamping at the empty string, as slices do). -/
def drop_right (s : String) (n : Nat) : String :=
  ⟨s.data.take (s.data.length - n)⟩

/-- Python `str.lower` on ASCII data. -/
def to_lower (s : String) : String :=
  ⟨s.data.map Char.toLower⟩

/-- `utils.is_plural`: `string[-3:] == "ies"` or `string[-1] == "s"`.
`string[-1]` raises `IndexError` on the empty string, hence the `Option`. -/
def is_plural (s : String) : Option Bool :=
  if ends_with s "ies" then some true
  else if s.data.isEmpty then none
  else some (ends_with s "s")

/-- `utils.make_singular`: `"ies" → "y"`; `"ches" → drop "es"` (the source
checks `s[-2:] == "es" and s[-4:-2] == "ch"`, which is exactly an `endsWith
"ches"` test); otherwise drop the final character (Python slicing never
raises). -/
def make_singular (s : String) : String :=
  if ends_with s "ies" then drop_right s 3 ++ "y"
  else if ends_with s "ches" then drop_right s 2
  else drop_right s 1

/-- `utils.is_snake_case`: no `'-'` and no character changed by lower-casing
(Python `c.lower() != c`; the identifiers at play are ASCII, where Python's
`str.lower` and `Char.toLower` agree). -/
def is_snake_case (s : String) : Bool :=
  (!s.data.any (fun c => c = '-')) && s.data.all (fun c => c.toLower = c)

/-- Python `str.isupper` for ASCII identifiers: at least one cased character
and every cased character uppercase (letters are the cased characters here). -/
def pyIsUpper (s : String) : Bool :=
  s.data.any (fun c => c.isAlpha) && s.data.all (fun c => !c.isAlpha || c.isUpper)

/-- The character loop of `utils.change_to_snake_case`: every uppercase letter
becomes `'_'` followed by its lowercase form (the source tests membership in
`string.ascii_uppercase`, which is `Char.isUpper`). -/
def snakeBody : List Char → List Char
  | [] => []
  | c :: cs => (if c.isUpper then ['_', c.toLower] else [c]) ++ snakeBody cs

/-- `utils.change_to_snake_case`: snake-case input returned unchanged; an
all-uppercase string is lower-cased wholesale; otherwise the first character is
lower-cased and every later uppercase character starts a new `_`-separated
word. (The empty string is snake case, so the `s[0]` access never raises.) -/
def change_to_snake_case (s : String) : String :=
  if is_snake_case s then s
  else if pyIsUpper s then to_lower s
  else
    match s.data with
    | [] => ""
    | c :: cs => ⟨c.toLower :: snakeBody cs⟩

/-! ## The tree instantiator (`app_loader.instantiate_configs_in_dict`) -/

/-- `Config.CONFIG_SUFFIX` from `config_registrar.py`. -/
def CONFIG_SUFFIX : String := "_config"

/-- A `Config` instance under construction: its registry-key type tag and its
attribute dictionary. -/
abbrev NodeSt := Option String × List (String × CVal)

/-- `config_registry[name]() if name in config_registry else Config()`:
a fresh instance of the registered class (with its `__init__` attributes), or a
bare generic `Config`. -/
def initNode (reg : Registry) (cname : String) : NodeSt :=
  match lookupReg reg cname with
  | some c => (some cname, c.initAttrs)
  | none => (none, [])

/-- `hasattr(v, "items")`: true exactly for mappings among parsed YAML data. -/
def isMapLike : Yaml → Bool
  | .ymap _ => true
  | _ => false

mutual

/-- The inner `recursively_set_attrs(instance, attr, vals)` of
`instantiate_configs_in_dict`, as the value it attaches under `attr`:
* a mapping becomes a registered-or-generic child node populated from its
  pairs;
* a list under a plural key whose first element is map-like becomes a list of
  registered-or-generic nodes (`none` when the list is empty: `vals[0]` raises
  `IndexError` before `hasattr` can guard it, and when `attr` is the empty
  string: `is_plural` raises);
* any other list, and every scalar — `None` included — is attached as-is
  (`new_configs or vals` falls back to the raw list when no nodes were built).
-/
def buildAttrVal (reg : Registry) (attr : String) (v : Yaml) : Option CVal :=
  match v with
  | .ymap kvs => do
      let st := initNode reg (attr ++ CONFIG_SUFFIX)
      let as ← buildInto reg st.2 kvs
      some (.node st.1 as)
  | .ylist xs => do
      let pl ← is_plural attr
      if pl then
        match xs with
        | [] => none
        | x :: _ =>
          if isMapLike x then do
            let cs ← buildItems reg (make_singular attr ++ CONFIG_SUFFIX) xs
            some (.nodes cs)
          else some (.raw (.ylist xs))
      else some (.raw (.ylist xs))
  | y => some (.raw y)

/-- The population loop `for att, val in vals.items(): recursively_set_attrs`:
folds `setattr` over the pairs in document order, starting from the instance's
current attributes. -/
def buildInto (reg : Registry) (acc : List (String × CVal))
    (kvs : List (String × Yaml)) : Option (List (String × CVal)) :=
  match kvs with
  | [] => some acc
  | (k, v) :: rest => do
      let cv ← buildAttrVal reg k v
      buildInto reg (setAttr acc k cv) rest

/-- The `for item in vals` loop shared by both list branches: one fresh
registered-or-generic instance of `cname` per element, populated from the
element's pairs when the element is map-like and left at its `__init__`
attributes otherwise. -/
def buildItems (reg : Registry) (cname : String) (xs : List Yaml) :
    Option (List CVal) :=
  match xs with
  | [] => some []
  | y :: ys => do
      let st := initNode reg cname
      let as ← match y with
        | .ymap kvs => buildInto reg st.2 kvs
        | _ => some st.2
      let rest ← buildItems reg cname ys
      some (.node st.1 as :: rest)

end

/-- The `val_to_set` computed by one iteration of the top-level loop of
`instantiate_configs_in_dict`: a fresh instance of `ext_name + '_config'` is
created first; `val_to_set` is that instance unless the value is a mapping
(the instance is populated) or a non-empty list (`val_to_set` is reassigned,
inside the `for item` loop, to the built node list). A scalar, a `None`, and
an empty list at top level therefore all attach the fresh — possibly typed,
otherwise generic — empty instance, never the value itself. -/
def topValFor (reg : Registry) (extName : String) (extValues : Yaml) :
    Option CVal :=
  let st := initNode reg (extName ++ CONFIG_SUFFIX)
  match extValues with
  | .ymap kvs => do
      let as ← buildInto reg st.2 kvs
      some (CVal.node st.1 as)
  | .ylist [] => some (CVal.node st.1 st.2)
  | .ylist (x :: xs) => do
      let cs ← buildItems reg (make_singular extName ++ CONFIG_SUFFIX) (x :: xs)
      some (CVal.nodes cs)
  | _ => some (CVal.node st.1 st.2)

/-- The top-level `for ext_name, ext_values in config_dict.items()` loop:
attach `topValFor` of each pair in document order. -/
def instantiateTop (reg : Registry) (target : NodeSt)
    (d : List (String × Yaml)) : Option NodeSt :=
  match d with
  | [] => some target
  | (extName, extValues) :: rest => do
      let valToSet ← topValFor reg extName extValues
      instantiateTop reg (target.1, setAttr target.2 extName valToSet) rest

/-- `instantiate_configs_in_dict(config_dict, config_to_set)`: a missing (or
`None`) target is replaced by a bare `Config()`; the populated target is
returned. -/
def instantiate_configs_in_dict (reg : Registry) (d : List (String × Yaml))
    (target : Option NodeSt) : Option CVal := do
  let t := target.getD (none, [])
  let st ← instantiateTop reg t d
  some (.node st.1 st.2)

/-! ## Path-walk (`utils.iterate_down_to`) -/

mutual

/-- The inner `find_recursively` of `iterate_down_to`, threading the
`data_found` accumulator exactly as the mutation does: in a mapping, a key
belonging to `args` is first searched recursively, then — when it is the last
element of `args` — its value is appended; lists are searched element-wise.
(The optional `var_to_key` keyword defaults to `None` in the source, making its
branch dead; this embedding is that default path.) -/
def findY (args : List String) (last : String) (d : Yaml) (acc : List Yaml) :
    List Yaml :=
  match d with
  | .ymap kvs => findKvs args last kvs acc
  | .ylist xs => findList args last xs acc
  | _ => acc

/-- The `for field, value in data.items()` loop of `find_recursively`. -/
def findKvs (args : List String) (last : String)
    (kvs : List (String × Yaml)) (acc : List Yaml) : List Yaml :=
  match kvs with
  | [] => acc
  | (k, v) :: rest =>
      let acc1 :=
        if k ∈ args then
          let a2 := findY args last v acc
          if k = last then a2 ++ [v] else a2
        else acc
      findKvs args last rest acc1

/-- The `for value in data` loop of `find_recursively`. -/
def findList (args : List String) (last : String) (xs : List Yaml)
    (acc : List Yaml) : List Yaml :=
  match xs with
  | [] => acc
  | x :: rest => findList args last rest (findY args last x acc)

end

/-- The result of `iterate_down_to`: `None`, a single value, or the list of
matches. -/
inductive WalkResult where
  | nothing
  | one (v : Yaml)
  | many (vs : List Yaml)
deriving Repr, BEq

/-- All matches collected by `iterate_down_to`'s traversal, in the order the
source appends them. -/
def walkMatches (d : Yaml) (args : List String) : List Yaml :=
  findY args (args.getLastD "") d []

/-- `utils.iterate_down_to(data, *args)`: `data_found[0]` when exactly one
match, `None` when none (`data_found or None`), the whole list otherwise.
`args[-1]` is only evaluated under `field in args`, so an empty `args` simply
finds nothing. -/
def iterate_down_to (d : Yaml) (args : List String) : WalkResult :=
  match walkMatches d args with
  | [x] => .one x
  | [] => .nothing
  | xs => .many xs

/-! ## Registration (`config_registrar.register_config`) -/

/-- `Config.get_name` (a classmethod): the class `__name__` in snake case. -/
def PyClass.get_name (c : PyClass) : String := change_to_snake_case c.pyName

/-- What a call in the registration protocol evaluates to: the inner `wrapper`
closure, or — once the wrapper is applied — the class itself. -/
inductive RegResult where
  | wrapperFn (root : Bool)
  | classResult (c : PyClass)
deriving Repr, BEq

/-- `register_config(cls=None, root=False)`: the body evaluates
`functools.wraps(cls)` — which only builds a decorator that is immediately
discarded — defines `wrapper`, and returns it. The registry is untouched and
`cls` is never registered, whatever was passed. -/
def register_config (cls : Option PyClass) (root : Bool) (reg : Registry) :
    Registry × RegResult :=
  let _ := cls
  (reg, .wrapperFn root)

/-- Applying the returned `wrapper` to a class: stores it in `config_registry`
under `'root'` (when the original call said `root=True`) or under
`cls.get_name()`, and returns the class. -/
def wrapper_apply (root : Bool) (cls : PyClass) (reg : Registry) :
    Registry × RegResult :=
  (if root then setReg reg "root" cls else setReg reg cls.get_name cls,
   .classResult cls)

/-! ## Colorized messages (`utils.CLIColors`) and the attribute-miss
diagnostic (`Config.__getattribute__`) -/

/-- `colorama.Fore.RED`. -/
def FORE_RED : String := "\x1b[31m"
/-- `colorama.Fore.CYAN`. -/
def FORE_CYAN : String := "\x1b[36m"
/-- `colorama.Fore.RESET`. -/
def FORE_RESET : String := "\x1b[39m"

/-- The scanning loop of Python `str.replace`, structurally recursive on a
fuel bound so that it evaluates by plain reduction; `fuel ≥ cs.length` makes
the bound inert. -/
def replaceSeqFuel (pat sub : List Char) : Nat → List Char → List Char
  | 0, cs => cs
  | _ + 1, [] => []
  | fuel + 1, c :: rest =>
    if List.isPrefixOf pat (c :: rest) && !pat.isEmpty then
      sub ++ replaceSeqFuel pat sub fuel (rest.drop (pat.length - 1))
    else c :: replaceSeqFuel pat sub fuel rest

/-- Python `str.replace`: left-to-right, non-overlapping occurrences of a
non-empty pattern. -/
def replaceSeq (pat sub cs : List Char) : List Char :=
  replaceSeqFuel pat sub cs.length cs

/-- Python `str.replace` on `String`s. -/
def pyReplace (s pat sub : String) : String :=
  ⟨replaceSeq pat.data sub.data s.data⟩

/-- `CLIColors.sanitize`: a falsy (empty) string becomes `""`; otherwise every
`Fore.RESET` inside is rewritten to the wrapping color. -/
def sanitize (s color : String) : String :=
  if s.data.isEmpty then "" else pyReplace s FORE_RESET color

/-- `CLIColors.build_error_string`. -/
def build_error_string (s : String) : String :=
  FORE_RED ++ sanitize s FORE_RED ++ FORE_RESET

/-- `CLIColors.build_value_string`. -/
def build_value_string (s : String) : String :=
  FORE_CYAN ++ sanitize s FORE_CYAN ++ FORE_RESET

mutual

/-- `re.findall("'([^']*)'", msg)` from `utils.parse_attr_error_message`: the
apostrophe-delimited chunks, left to right, non-overlapping. -/
def findQuoted (cs : List Char) : List String :=
  match cs with
  | [] => []
  | c :: rest => if c = '\'' then grabQuoted rest [] else findQuoted rest

/-- Inside an open quote: collect up to the closing apostrophe (an unclosed
final quote matches nothing, as the regex requires the closing delimiter). -/
def grabQuoted (cs : List Char) (acc : List Char) : List String :=
  match cs with
  | [] => []
  | c :: rest =>
    if c = '\'' then String.mk acc.reverse :: findQuoted rest
    else grabQuoted rest (c :: acc)

end

/-- `utils.parse_attr_error_message`. -/
def parse_attr_error_message (msg : String) : List String :=
  findQuoted msg.data

/-- `utils.get_erroring_attr`: unpacks `_, error_attr_name =
parse_attr_error_message(message)`; a message with other than exactly two
quoted chunks makes the unpacking itself raise (`none`). -/
def get_erroring_attr (msg : String) : Option String :=
  match parse_attr_error_message msg with
  | [_, attr] => some attr
  | _ => none

/-- The message CPython puts on the `AttributeError` that
`super().__getattribute__(name)` raises for a missing attribute:
`'{type(self).__name__}' object has no attribute '{name}'`. -/
def attrErrorMsg (clsName name : String) : String :=
  "'" ++ clsName ++ "'" ++ " object has no attribute " ++ "'" ++ name ++ "'"

/-- The enriched message `Config.__getattribute__` installs on the error when
a fuzzy suggestion exists. -/
def did_you_mean_msg (attr closest : String) : String :=
  build_error_string ("You tried to access " ++ build_value_string attr ++
    ". Did you mean " ++ build_value_string closest ++ "?")

/-- The warning printed when the node has no attributes at all. -/
def no_attrs_warning : String :=
  build_error_string
    "Looks like the CLIconfig has no attributes.  Probably improperly loaded."

/-- What an attribute access on a `Config` evaluates to. Every `err`
constructor is a raised `AttributeError`; the access never both fails and
returns. The embedding is pure, so the instance's attribute dictionary is
untouched by construction in every branch. -/
inductive GetattrResult where
  | found (v : CVal)
  | errEnriched (msg : String)
  | errNoAttrs (warning : String) (msg : String)
  | errOriginal (msg : String)
  | errInternal
deriving Repr, BEq

/-- The interface contract of `difflib.get_close_matches(word, possibilities,
n=3, cutoff=0)` as `Config.__getattribute__` calls it: with `cutoff=0` every
possibility qualifies, so the call returns the best-ranked possibilities (up
to the default `n=3`), best first, all drawn from `possibilities`. The
ranking itself (`difflib`'s edit-distance-style closeness) is an external
collaborator, admitted through this contract. -/
structure CloseSpec (close : String → List String → List String) : Prop where
  length_eq : ∀ w ps, (close w ps).length = min 3 ps.length
  mem_sub : ∀ w ps x, x ∈ close w ps → x ∈ ps

/-- `Config.__getattribute__(self, name)`: a present attribute is returned;
otherwise the erroring attribute name is parsed back out of the
`AttributeError` message, the closest fuzzy match over `vars(self).keys()` is
computed (`next` over `get_close_matches`, `cutoff=0`), and either an
enriched "did you mean" error is raised, or — when the node has no attributes
at all, so `next` hits `StopIteration` — a config-improperly-loaded warning
is printed and the original error re-raised. A falsy (empty-string) closest
match re-raises the original error unenriched. -/
def config_getattr (close : String → List String → List String)
    (clsName : String) (attrs : List (String × CVal)) (name : String) :
    GetattrResult :=
  match lookupAttr attrs name with
  | some v => .found v
  | none =>
    let origMsg := attrErrorMsg clsName name
    match get_erroring_attr origMsg with
    | none => .errInternal
    | some attr =>
      match close attr (attrs.map (fun p => p.1)) with
      | [] => .errNoAttrs no_attrs_warning origMsg
      | m :: _ =>
        if m.data.isEmpty then .errOriginal origMsg
        else .errEnriched (did_you_mean_msg attr m)

/-! ## The template-value renderer (`app_loader.render_config_args`) -/

/-- Python `key.startswith("_")`. -/
def startsUnderscore (k : String) : Bool :=
  match k.data with
  | c :: _ => c = '_'
  | [] => false

mutual

/-- `app_loader.convert_to_dict` on one attribute value: an object with a
`__dict__` becomes a mapping, a list is converted element-wise (the branch the
caller runs before recursing), raw parsed data — which has no `__dict__` — is
returned untouched. -/
def convertVal (v : CVal) : Yaml :=
  match v with
  | .raw y => y
  | .node _ as => .ymap (convertAttrs as)
  | .nodes cs => .ylist (convertNodes cs)

/-- The `for key, val in obj.__dict__.items()` loop of `convert_to_dict`:
attributes whose name starts with `'_'` are dropped. -/
def convertAttrs (as : List (String × CVal)) : List (String × Yaml) :=
  match as with
  | [] => []
  | (k, v) :: rest =>
    if startsUnderscore k then convertAttrs rest
    else (k, convertVal v) :: convertAttrs rest

/-- Element-wise conversion of a list attribute. -/
def convertNodes (cs : List CVal) : List Yaml :=
  match cs with
  | [] => []
  | c :: cs => convertVal c :: convertNodes cs

end

/-- Modelled from the spec: the serialize–substitute–parse step of
`render_config_args` (`json.loads(render_string(json.dumps(render_args),
render_args))`). `render_string` is Jinja2, an external collaborator outside
this repository; per the spec it substitutes embedded placeholder
expressions, so on a document containing no placeholder expression it is the
identity, and the JSON round-trip is the identity on parsed data. Every
claim below concerns only placeholder-free trees, so the step is embedded as
the identity. -/
def render_template_step (d : List (String × Yaml)) : List (String × Yaml) := d

/-- `isinstance(value, str) and not isinstance(value, Config) and not
isinstance(value, list)` — a plain string value (the two extra tests exclude
nothing a string could be). -/
def isStrVal (v : CVal) : Bool :=
  match v with
  | .raw (.ystr _) => true
  | _ => false

/-- The overlay loop of `render_config_args`: every attribute of the
*original* node holding a plain string is copied over the rendered node. -/
def overlayStrings (orig rendered : List (String × CVal)) :
    List (String × CVal) :=
  match orig with
  | [] => rendered
  | (k, v) :: rest =>
      overlayStrings rest (if isStrVal v then setAttr rendered k v else rendered)

/-- `app_loader.render_config_args(config_obj)`: snapshot the node with
`convert_to_dict`, run the (identity, see `render_template_step`) template
pass, re-instantiate into a fresh bare `Config()`, then overlay the original
plain-string attributes. -/
def render_config_args (reg : Registry) (c : NodeSt) : Option CVal := do
  let renderArgs := convertAttrs c.2
  let st ← instantiateTop reg (none, []) (render_template_step renderArgs)
  some (.node st.1 (overlayStrings c.2 st.2))

/-- `pat` occurs contiguously inside `cs`. -/
def containsSeq (pat : List Char) (cs : List Char) : Bool :=
  match cs with
  | [] => pat.isEmpty
  | c :: rest => List.isPrefixOf pat (c :: rest) || containsSeq pat rest

/-- No string value anywhere in the tree contains a `\x7b\x7b` placeholder
opener — the "no template placeholder expression" premise of the round-trip
claim. -/
def noTemplateStr (s : String) : Bool :=
  !(containsSeq ['\x7b', '\x7b'] s.data)

mutual

/-- The attribute values for which the render pipeline can be exact: plain
placeholder-free strings and nested `Config` nodes of the same shape.
(Underscore-prefixed names are dropped by the snapshot, duplicate names
cannot occur in a real `__dict__`, non-string scalars and lists are destroyed
by the top-level re-instantiation — see the round-trip counterexample.) -/
def goodVal (v : CVal) : Bool :=
  match v with
  | .raw (.ystr s) => noTemplateStr s
  | .node _ as => goodAttrs as
  | _ => false

/-- `goodVal` on every attribute, plus: no underscore-prefixed and no
duplicate attribute names. -/
def goodAttrs (as : List (String × CVal)) : Bool :=
  match as with
  | [] => true
  | (k, v) :: rest =>
      !startsUnderscore k && !(rest.any (fun p => p.1 = k)) &&
        goodVal v && goodAttrs rest

end

mutual

/-- Structural equality of parsed data (the derived `BEq` goes through
well-founded recursion and does not evaluate by plain reduction, so the
comparison is spelled out). -/
def yamlBeq (a b : Yaml) : Bool :=
  match a, b with
  | .ynull, .ynull => true
  | .ystr x, .ystr y => x == y
  | .yint x, .yint y => x == y
  | .ybool x, .ybool y => x == y
  | .ylist xs, .ylist ys => yamlBeqList xs ys
  | .ymap xs, .ymap ys => yamlBeqMap xs ys
  | _, _ => false

/-- `yamlBeq` element-wise. -/
def yamlBeqList (xs ys : List Yaml) : Bool :=
  match xs, ys with
  | [], [] => true
  | x :: xs, y :: ys => yamlBeq x y && yamlBeqList xs ys
  | _, _ => false

/-- `yamlBeq` pair-wise. -/
def yamlBeqMap (xs ys : List (String × Yaml)) : Bool :=
  match xs, ys with
  | [], [] => true
  | (k, x) :: xs, (k2, y) :: ys => k == k2 && yamlBeq x y && yamlBeqMap xs ys
  | _, _ => false

end

mutual

/-- Field-for-field equality of instantiated values: equal raw data, equal
attribute names in the same order with recursively field-equal values,
node lists of equal length with field-equal elements. The concrete class of a
node is not part of the comparison. -/
def fieldEquiv (a b : CVal) : Bool :=
  match a, b with
  | .raw x, .raw y => yamlBeq x y
  | .node _ as, .node _ bs => fieldEquivAttrs as bs
  | .nodes cs, .nodes ds => fieldEquivNodes cs ds
  | _, _ => false

/-- `fieldEquiv` over attribute dictionaries, name by name in order. -/
def fieldEquivAttrs (as bs : List (String × CVal)) : Bool :=
  match as, bs with
  | [], [] => true
  | (k, v) :: r, (k2, v2) :: r2 => k == k2 && fieldEquiv v v2 && fieldEquivAttrs r r2
  | _, _ => false

/-- `fieldEquiv` over node lists, element by element in order. -/
def fieldEquivNodes (cs ds : List CVal) : Bool :=
  match cs, ds with
  | [], [] => true
  | c :: r, d :: r2 => fieldEquiv c d && fieldEquivNodes r r2
  | _, _ => false

end

/-- Every class in the registry constructs with an empty `__dict__` (no
`__init__`-preset attributes) — the regime in which the render round-trip can
restore a tree exactly. -/
def RegClean (reg : Registry) : Prop :=
  ∀ p ∈ reg, p.2.initAttrs = ([] : List (String × CVal))

/-- The nested document of the path-walk examples in the spec:
`{"yolo": "v", "brolo": {"nested_key": "nv", "nested_list": [{"key": "a"},
{"key": "b"}]}}`. -/
def pathWalkDoc : Yaml :=
  .ymap [("yolo", .ystr "v"),
    ("brolo", .ymap [("nested_key", .ystr "nv"),
      ("nested_list", .ylist [.ymap [("key", .ystr "a")],
        .ymap [("key", .ystr "b")]])])]

/-- A concrete ranking function satisfying `CloseSpec` (any ranking does; the
first three possibilities in order). -/
def closeTake3 (w : String) (ps : List String) : List String :=
  let _ := w
  ps.take 3

/-- The state of one attribute after the re-instantiation pass of
`render_config_args`, before the overlay: same name; a plain-string original
is (whatever it became — the overlay will overwrite it), any other original is
already field-equal. -/
def renderReady (p q : String × CVal) : Prop :=
  q.1 = p.1 ∧ (isStrVal p.2 = true ∨ fieldEquiv q.2 p.2 = true)

/-! # Theorems -/

/-! ## Dictionary-update helper lemmas -/

theorem setAttr_cons_ne (a : String × CVal) (as : List (String × CVal))
    (k : String) (v : CVal) (h : ¬a.1 = k) :
    setAttr (a :: as) k v = a :: setAttr as k v := by
  simp only [setAttr, List.any_cons, decide_eq_true_eq, h, decide_False,
    Bool.false_or]
  by_cases hrest : as.any (fun p => p.1 = k)
  · simp [hrest, if_neg h]
  · simp [hrest]

theorem setAttr_not_mem (as : List (String × CVal)) (k : String) (v : CVal)
    (h : as.any (fun p => p.1 = k) = false) :
    setAttr as k v = as ++ [(k, v)] := by
  simp [setAttr, h]

theorem lookupAttr_setAttr_self (as : List (String × CVal)) (k : String)
    (v : CVal) : lookupAttr (setAttr as k v) k = some v := by
  induction as with
  | nil => simp [setAttr, lookupAttr]
  | cons a rest ih =>
    by_cases ha : a.1 = k
    · have hany : (a :: rest).any (fun p => p.1 = k) = true := by
        simp [List.any_cons, ha]
      simp only [setAttr, hany, if_true, List.map_cons, if_pos ha]
      simp [lookupAttr]
    · rw [setAttr_cons_ne a rest k v ha]
      simp [lookupAttr, ha, ih]

theorem lookupAttr_setAttr_ne (as : List (String × CVal)) (k k2 : String)
    (v : CVal) (h : ¬k2 = k) :
    lookupAttr (setAttr as k v) k2 = lookupAttr as k2 := by
  induction as with
  | nil =>
    have hset : setAttr [] k v = [(k, v)] := rfl
    rw [hset]
    simp only [lookupAttr]
    rw [if_neg (fun e => h e.symm)]
  | cons a rest ih =>
    by_cases ha : a.1 = k
    · have hany : (a :: rest).any (fun p => p.1 = k) = true := by
        simp [List.any_cons, ha]
      have hmap : ∀ l : List (String × CVal),
          lookupAttr (l.map (fun p => if p.1 = k then (k, v) else p)) k2 =
            lookupAttr l k2 := by
        intro l
        induction l with
        | nil => simp [lookupAttr]
        | cons b r ihb =>
          by_cases hb : b.1 = k
          · rw [List.map_cons, if_pos hb]
            simp only [lookupAttr]
            rw [if_neg (fun e => h e.symm),
              if_neg (fun e => h (hb.symm.trans e).symm)]
            exact ihb
          · rw [List.map_cons, if_neg hb]
            simp only [lookupAttr]
            by_cases hb2 : b.1 = k2
            · rw [if_pos hb2, if_pos hb2]
            · rw [if_neg hb2, if_neg hb2]
              exact ihb
      simp only [setAttr, hany, if_true]
      exact hmap (a :: rest)
    · rw [setAttr_cons_ne a rest k v ha]
      simp only [lookupAttr]
      by_cases ha2 : a.1 = k2
      · rw [if_pos ha2, if_pos ha2]
      · rw [if_neg ha2, if_neg ha2]
        exact ih

theorem lookupReg_setReg_self (reg : Registry) (k : String) (c : PyClass) :
    lookupReg (setReg reg k c) k = some c := by
  induction reg with
  | nil => simp [setReg, lookupReg]
  | cons a rest ih =>
    by_cases ha : a.1 = k
    · have hany : (a :: rest).any (fun p => p.1 = k) = true := by
        simp [List.any_cons, ha]
      simp only [setReg, hany, if_true, List.map_cons, if_pos ha]
      simp [lookupReg]
    · have : setReg (a :: rest) k c = a :: setReg rest k c := by
        simp only [setReg, List.any_cons, decide_eq_true_eq, ha, decide_False,
          Bool.false_or]
        by_cases hrest : rest.any (fun p => p.1 = k)
        · simp [hrest, if_neg ha]
        · simp [hrest]
      rw [this]
      simp [lookupReg, ha, ih]

/-! ## Top-level instantiation lemmas -/

theorem instantiateTop_cons_eq_some (reg : Registry) (t : NodeSt)
    (e : String) (w : Yaml) (rest : List (String × Yaml)) (r : NodeSt)
    (h : instantiateTop reg t ((e, w) :: rest) = some r) :
    ∃ u, topValFor reg e w = some u ∧
      instantiateTop reg (t.1, setAttr t.2 e u) rest = some r := by
  simp only [instantiateTop, Option.bind_eq_bind] at h
  exact Option.bind_eq_some.mp h

theorem instantiateTop_fst (reg : Registry) :
    ∀ (d : List (String × Yaml)) (t r : NodeSt),
      instantiateTop reg t d = some r → r.1 = t.1 := by
  intro d
  induction d with
  | nil =>
    intro t r h
    simp only [instantiateTop] at h
    cases h
    rfl
  | cons p rest ih =>
    intro t r h
    obtain ⟨u, _, h2⟩ := instantiateTop_cons_eq_some reg t p.1 p.2 rest r h
    exact ih (t.1, setAttr t.2 p.1 u) r h2

theorem instantiateTop_lookup_not_mem (reg : Registry) :
    ∀ (d : List (String × Yaml)) (t r : NodeSt) (K : String),
      (∀ p ∈ d, p.1 ≠ K) → instantiateTop reg t d = some r →
      lookupAttr r.2 K = lookupAttr t.2 K := by
  intro d
  induction d with
  | nil =>
    intro t r K _ h
    simp only [instantiateTop] at h
    cases h
    rfl
  | cons p rest ih =>
    intro t r K hni h
    obtain ⟨u, _, h2⟩ := instantiateTop_cons_eq_some reg t p.1 p.2 rest r h
    have hrest : ∀ q ∈ rest, q.1 ≠ K := fun q hq => hni q (by simp [hq])
    rw [ih _ _ K hrest h2]
    exact lookupAttr_setAttr_ne t.2 p.1 K u
      (fun e => hni p (by simp) (e ▸ rfl))

theorem instantiateTop_attaches (reg : Registry) :
    ∀ (d : List (String × Yaml)) (t r : NodeSt) (K : String) (v : Yaml),
      (d.map Prod.fst).Nodup → (K, v) ∈ d →
      instantiateTop reg t d = some r →
      ∃ u, topValFor reg K v = some u ∧ lookupAttr r.2 K = some u := by
  intro d
  induction d with
  | nil =>
    intro t r K v _ hmem
    cases hmem
  | cons p rest ih =>
    intro t r K v hnodup hmem h
    obtain ⟨u, hu, h2⟩ := instantiateTop_cons_eq_some reg t p.1 p.2 rest r h
    rw [List.map_cons] at hnodup
    have hnd := List.nodup_cons.mp hnodup
    rcases List.mem_cons.mp hmem with heq | hmem2
    · have hK : p.1 = K := by rw [← heq]
      have hv : p.2 = v := by rw [← heq]
      subst hK
      have hni : ∀ q ∈ rest, q.1 ≠ p.1 := by
        intro q hq he
        exact hnd.1 (he ▸ List.mem_map_of_mem Prod.fst hq)
      refine ⟨u, hv ▸ hu, ?_⟩
      rw [instantiateTop_lookup_not_mem reg rest _ r p.1 hni h2]
      exact lookupAttr_setAttr_self t.2 p.1 u
    · exact ih _ _ K v hnd.2 hmem2 h2

theorem instantiate_dict_eq_node (reg : Registry) (d : List (String × Yaml))
    (out : CVal) (h : instantiate_configs_in_dict reg d none = some out) :
    ∃ st, instantiateTop reg (none, []) d = some st ∧
      out = CVal.node st.1 st.2 := by
  simp only [instantiate_configs_in_dict, Option.getD, Option.bind_eq_bind] at h
  obtain ⟨st, h1, h2⟩ := Option.bind_eq_some.mp h
  cases h2
  exact ⟨st, h1, rfl⟩

/-- The value attached for a top-level key whose value is a mapping. -/
theorem topValFor_ymap (reg : Registry) (K : String)
    (m : List (String × Yaml)) (u : CVal)
    (h : topValFor reg K (Yaml.ymap m) = some u) :
    ∃ as, buildInto reg (initNode reg (K ++ CONFIG_SUFFIX)).2 m = some as ∧
      u = CVal.node (initNode reg (K ++ CONFIG_SUFFIX)).1 as := by
  simp only [topValFor, Option.bind_eq_bind] at h
  obtain ⟨as, h1, h2⟩ := Option.bind_eq_some.mp h
  cases h2
  exact ⟨as, h1, rfl⟩

/-! ## Claim C1 -/

/-- C1: For every type `T` registered (non-root) under name `K ++ '_config'`
and every source mapping with top-level key `K` mapped to a sub-mapping,
`instantiate_configs_in_dict` attaches under `K` a node whose concrete type is
`T` — type tag `some (K ++ '_config')`, populated from the sub-mapping
starting at `T`'s `__init__` attributes; when no such registration exists, a
generic `Config` node (tag `none`, starting empty) is attached instead. -/
theorem C1_registered_type_attached
    (reg : Registry) (d : List (String × Yaml)) (K : String)
    (m : List (String × Yaml)) (out : CVal)
    (hnodup : (d.map Prod.fst).Nodup)
    (hmem : (K, Yaml.ymap m) ∈ d)
    (hout : instantiate_configs_in_dict reg d none = some out) :
    ∃ ty attrs rootTy rootAttrs,
      out = CVal.node rootTy rootAttrs ∧
      lookupAttr rootAttrs K = some (CVal.node ty attrs) ∧
      (∀ T, lookupReg reg (K ++ CONFIG_SUFFIX) = some T →
        ty = some (K ++ CONFIG_SUFFIX) ∧
        buildInto reg T.initAttrs m = some attrs) ∧
      (lookupReg reg (K ++ CONFIG_SUFFIX) = none →
        ty = none ∧ buildInto reg [] m = some attrs) := by
  obtain ⟨st, hst, rfl⟩ := instantiate_dict_eq_node reg d out hout
  obtain ⟨u, hu, hlook⟩ :=
    instantiateTop_attaches reg d (none, []) st K (Yaml.ymap m) hnodup hmem hst
  obtain ⟨as, has, rfl⟩ := topValFor_ymap reg K m u hu
  refine ⟨(initNode reg (K ++ CONFIG_SUFFIX)).1, as, st.1, st.2, rfl, hlook,
    ?_, ?_⟩
  · intro T hT
    have hi : initNode reg (K ++ CONFIG_SUFFIX) =
        (some (K ++ CONFIG_SUFFIX), T.initAttrs) := by
      simp [initNode, hT]
    rw [hi] at has ⊢
    exact ⟨rfl, has⟩
  · intro hT
    have hi : initNode reg (K ++ CONFIG_SUFFIX) = (none, []) := by
      simp [initNode, hT]
    rw [hi] at has ⊢
    exact ⟨rfl, has⟩

/-- Witness for C1 at the registered key `ext` and the sub-mapping
`{"x": "1"}`. -/
theorem C1_registered_type_attached_witness :
    ∃ ty attrs rootTy rootAttrs,
      some (CVal.node none [("ext",
          CVal.node (some "ext_config") [("x", CVal.raw (Yaml.ystr "1"))])])
        = some (CVal.node rootTy rootAttrs) ∧
      lookupAttr rootAttrs "ext" = some (CVal.node ty attrs) ∧
      (∀ T, lookupReg [("ext_config", PyClass.mk "ExtConfig" [])]
            ("ext" ++ CONFIG_SUFFIX) = some T →
        ty = some ("ext" ++ CONFIG_SUFFIX) ∧
        buildInto [("ext_config", PyClass.mk "ExtConfig" [])] T.initAttrs
            [("x", Yaml.ystr "1")] = some attrs) ∧
      (lookupReg [("ext_config", PyClass.mk "ExtConfig" [])]
            ("ext" ++ CONFIG_SUFFIX) = none →
        ty = none ∧ buildInto [("ext_config", PyClass.mk "ExtConfig" [])] []
            [("x", Yaml.ystr "1")] = some attrs) := by
  obtain ⟨ty, attrs, rootTy, rootAttrs, h1, h2, h3, h4⟩ :=
    C1_registered_type_attached [("ext_config", PyClass.mk "ExtConfig" [])]
      [("ext", Yaml.ymap [("x", Yaml.ystr "1")])] "ext" [("x", Yaml.ystr "1")]
      (CVal.node none [("ext",
        CVal.node (some "ext_config") [("x", CVal.raw (Yaml.ystr "1"))])])
      (by simp) (by simp) rfl
  exact ⟨ty, attrs, rootTy, rootAttrs, by rw [h1], h2, h3, h4⟩

/-! ## Claim C2 -/

theorem buildItems_all_maps (reg : Registry) (cname : String) :
    ∀ (xs : List Yaml) (cs : List CVal),
      (∀ y ∈ xs, ∃ kvs, y = Yaml.ymap kvs) →
      buildItems reg cname xs = some cs →
      List.Forall₂ (fun y c => ∃ kvs as, y = Yaml.ymap kvs ∧
        buildInto reg (initNode reg cname).2 kvs = some as ∧
        c = CVal.node (initNode reg cname).1 as) xs cs := by
  intro xs
  induction xs with
  | nil =>
    intro cs _ h
    simp only [buildItems] at h
    cases h
    exact List.Forall₂.nil
  | cons y ys ih =>
    intro cs hall h
    obtain ⟨kvs, rfl⟩ := hall y (by simp)
    simp only [buildItems, Option.bind_eq_bind] at h
    obtain ⟨as, has, h2⟩ := Option.bind_eq_some.mp h
    obtain ⟨rest, hrest, h3⟩ := Option.bind_eq_some.mp h2
    cases h3
    exact List.Forall₂.cons ⟨kvs, as, rfl, has, rfl⟩
      (ih rest (fun z hz => hall z (by simp [hz])) hrest)

/-- C2: For every key `K` inside a nested mapping whose value is a non-empty
sequence, if `K` is grammatically plural and the sequence's first element is
map-like, `recursively_set_attrs` attaches under `K` an ordered list of
`Config` nodes, one per element in sequence order; each node is of the
registered type named `make_singular K ++ '_config'` when that name is
registered (else a generic `Config`), and is populated recursively from the
corresponding element's key/value pairs. -/
theorem C2_plural_list_of_mappings
    (reg : Registry) (attr : String) (xs : List Yaml) (x0 : Yaml) (v : CVal)
    (hpl : is_plural attr = some true)
    (hhead : xs.head? = some x0)
    (hmap : isMapLike x0 = true)
    (hall : ∀ y ∈ xs, ∃ kvs, y = Yaml.ymap kvs)
    (hv : buildAttrVal reg attr (Yaml.ylist xs) = some v) :
    ∃ cs, v = CVal.nodes cs ∧
      List.Forall₂ (fun y c => ∃ kvs as, y = Yaml.ymap kvs ∧
        buildInto reg
          (initNode reg (make_singular attr ++ CONFIG_SUFFIX)).2 kvs
          = some as ∧
        c = CVal.node
          (initNode reg (make_singular attr ++ CONFIG_SUFFIX)).1 as) xs cs ∧
      (∀ T, lookupReg reg (make_singular attr ++ CONFIG_SUFFIX) = some T →
        initNode reg (make_singular attr ++ CONFIG_SUFFIX)
          = (some (make_singular attr ++ CONFIG_SUFFIX), T.initAttrs)) ∧
      (lookupReg reg (make_singular attr ++ CONFIG_SUFFIX) = none →
        initNode reg (make_singular attr ++ CONFIG_SUFFIX) = (none, [])) := by
  cases xs with
  | nil => cases hhead
  | cons y ys =>
    have hy : y = x0 := by
      simpa using hhead
    subst hy
    simp only [buildAttrVal, hpl, Option.bind_eq_bind, Option.some_bind,
      if_true, hmap, Option.bind_eq_bind] at hv
    obtain ⟨cs, hcs, h2⟩ := Option.bind_eq_some.mp hv
    cases h2
    refine ⟨cs, rfl, buildItems_all_maps reg _ (y :: ys) cs hall hcs, ?_, ?_⟩
    · intro T hT
      simp [initNode, hT]
    · intro hT
      simp [initNode, hT]

/-- Witness for C2: `tables: [{name: t1}]` with `table_config` registered. -/
theorem C2_plural_list_of_mappings_witness :
    ∃ cs, CVal.nodes [CVal.node (some "table_config")
        [("name", CVal.raw (Yaml.ystr "t1"))]] = CVal.nodes cs ∧
      List.Forall₂ (fun y c => ∃ kvs as, y = Yaml.ymap kvs ∧
        buildInto [("table_config", PyClass.mk "TableConfig" [])]
          (initNode [("table_config", PyClass.mk "TableConfig" [])]
            (make_singular "tables" ++ CONFIG_SUFFIX)).2 kvs
          = some as ∧
        c = CVal.node
          (initNode [("table_config", PyClass.mk "TableConfig" [])]
            (make_singular "tables" ++ CONFIG_SUFFIX)).1 as)
        [Yaml.ymap [("name", Yaml.ystr "t1")]] cs ∧
      (∀ T, lookupReg [("table_config", PyClass.mk "TableConfig" [])]
            (make_singular "tables" ++ CONFIG_SUFFIX) = some T →
        initNode [("table_config", PyClass.mk "TableConfig" [])]
            (make_singular "tables" ++ CONFIG_SUFFIX)
          = (some (make_singular "tables" ++ CONFIG_SUFFIX), T.initAttrs)) ∧
      (lookupReg [("table_config", PyClass.mk "TableConfig" [])]
            (make_singular "tables" ++ CONFIG_SUFFIX) = none →
        initNode [("table_config", PyClass.mk "TableConfig" [])]
            (make_singular "tables" ++ CONFIG_SUFFIX) = (none, [])) :=
  C2_plural_list_of_mappings [("table_config", PyClass.mk "TableConfig" [])]
    "tables" [Yaml.ymap [("name", Yaml.ystr "t1")]]
    (Yaml.ymap [("name", Yaml.ystr "t1")])
    (CVal.nodes [CVal.node (some "table_config")
      [("name", CVal.raw (Yaml.ystr "t1"))]])
    rfl rfl rfl (by intro y hy; exact ⟨[("name", Yaml.ystr "t1")], by simpa using hy⟩) rfl

/-! ## Claim C3 -/

/-- C3 counterexample: at top level a sequence does *not* pass through
unchanged — `{"items": ["a"]}` attaches a list containing one empty generic
`Config` node, not the raw list `["a"]`. -/
theorem C3_top_level_identity_counterexample :
    instantiate_configs_in_dict [] [("items", Yaml.ylist [Yaml.ystr "a"])] none
      = some (CVal.node none [("items", CVal.nodes [CVal.node none []])]) ∧
    CVal.nodes [CVal.node none []] ≠ CVal.raw (Yaml.ylist [Yaml.ystr "a"]) :=
  ⟨rfl, fun h => CVal.noConfusion h⟩

/-- C3 amended: inside a nested mapping, a sequence under a non-plural key, or
one whose first element is not map-like, is attached unchanged (identity);
but at top level every non-empty sequence becomes a list of built `Config`
nodes and an empty sequence becomes the fresh registered-or-generic empty
instance — the raw sequence is never attached there. -/
theorem C3_sequence_passthrough_amended
    (reg : Registry) (attr : String) (xs : List Yaml) :
    (is_plural attr = some false →
      buildAttrVal reg attr (Yaml.ylist xs)
        = some (CVal.raw (Yaml.ylist xs))) ∧
    (∀ x0 rest, xs = x0 :: rest → is_plural attr = some true →
      isMapLike x0 = false →
      buildAttrVal reg attr (Yaml.ylist xs)
        = some (CVal.raw (Yaml.ylist xs))) ∧
    (∀ x0 rest, xs = x0 :: rest →
      topValFor reg attr (Yaml.ylist xs)
        = (buildItems reg (make_singular attr ++ CONFIG_SUFFIX) xs).bind
            (fun cs => some (CVal.nodes cs))) ∧
    (topValFor reg attr (Yaml.ylist [])
      = some (CVal.node (initNode reg (attr ++ CONFIG_SUFFIX)).1
          (initNode reg (attr ++ CONFIG_SUFFIX)).2)) := by
  refine ⟨?_, ?_, ?_, rfl⟩
  · intro hpl
    cases xs with
    | nil => simp [buildAttrVal, hpl]
    | cons x rest => simp [buildAttrVal, hpl]
  · intro x0 rest hxs hpl hm
    subst hxs
    simp [buildAttrVal, hpl, hm]
  · intro x0 rest hxs
    subst hxs
    rfl

/-- Witness for C3 (amended) at the non-plural key `table`. -/
theorem C3_sequence_passthrough_amended_witness :
    buildAttrVal [] "table" (Yaml.ylist [Yaml.yint 1, Yaml.yint 2])
      = some (CVal.raw (Yaml.ylist [Yaml.yint 1, Yaml.yint 2])) :=
  (C3_sequence_passthrough_amended [] "table"
    [Yaml.yint 1, Yaml.yint 2]).1 rfl

/-! ## Claim C4 -/

/-- C4 counterexample: a null value at a *nested* level is stored as the raw
null itself, not replaced by an empty `Config` node —
`{"outer": {"inner": null}}` leaves `outer.inner` as `None`. -/
theorem C4_null_placeholder_counterexample :
    instantiate_configs_in_dict []
        [("outer", Yaml.ymap [("inner", Yaml.ynull)])] none
      = some (CVal.node none
          [("outer", CVal.node none [("inner", CVal.raw Yaml.ynull)])]) ∧
    ∀ ty as, CVal.raw Yaml.ynull ≠ CVal.node ty as :=
  ⟨rfl, fun _ _ h => CVal.noConfusion h⟩

/-- C4 amended: a null value under a *top-level* key `K` still attaches a
fresh empty child node — an instance of the registered type for
`K ++ '_config'` when registered, else a generic empty `Config`; at nested
levels the null is stored as-is like any other scalar. -/
theorem C4_null_placeholder_amended
    (reg : Registry) (d : List (String × Yaml)) (K : String) (out : CVal)
    (hnodup : (d.map Prod.fst).Nodup)
    (hmem : (K, Yaml.ynull) ∈ d)
    (hout : instantiate_configs_in_dict reg d none = some out) :
    (∃ rootTy rootAttrs, out = CVal.node rootTy rootAttrs ∧
      lookupAttr rootAttrs K
        = some (CVal.node (initNode reg (K ++ CONFIG_SUFFIX)).1
            (initNode reg (K ++ CONFIG_SUFFIX)).2)) ∧
    (∀ attr, buildAttrVal reg attr Yaml.ynull = some (CVal.raw Yaml.ynull)) ∧
    (∀ T, lookupReg reg (K ++ CONFIG_SUFFIX) = some T →
      initNode reg (K ++ CONFIG_SUFFIX)
        = (some (K ++ CONFIG_SUFFIX), T.initAttrs)) ∧
    (lookupReg reg (K ++ CONFIG_SUFFIX) = none →
      initNode reg (K ++ CONFIG_SUFFIX) = (none, [])) := by
  obtain ⟨st, hst, rfl⟩ := instantiate_dict_eq_node reg d out hout
  obtain ⟨u, hu, hlook⟩ :=
    instantiateTop_attaches reg d (none, []) st K Yaml.ynull hnodup hmem hst
  have hu2 : u = CVal.node (initNode reg (K ++ CONFIG_SUFFIX)).1
      (initNode reg (K ++ CONFIG_SUFFIX)).2 := by
    have : topValFor reg K Yaml.ynull
        = some (CVal.node (initNode reg (K ++ CONFIG_SUFFIX)).1
            (initNode reg (K ++ CONFIG_SUFFIX)).2) := rfl
    rw [this] at hu
    exact (Option.some_inj.mp hu).symm
  refine ⟨⟨st.1, st.2, rfl, hu2 ▸ hlook⟩, fun attr => rfl, ?_, ?_⟩
  · intro T hT
    simp [initNode, hT]
  · intro hT
    simp [initNode, hT]

/-- Witness for C4 (amended): `{"menu": null}` with `menu_config`
registered. -/
theorem C4_null_placeholder_amended_witness :
    (∃ rootTy rootAttrs,
      CVal.node none [("menu", CVal.node (some "menu_config") [])]
        = CVal.node rootTy rootAttrs ∧
      lookupAttr rootAttrs "menu"
        = some (CVal.node
            (initNode [("menu_config", PyClass.mk "MenuConfig" [])]
              ("menu" ++ CONFIG_SUFFIX)).1
            (initNode [("menu_config", PyClass.mk "MenuConfig" [])]
              ("menu" ++ CONFIG_SUFFIX)).2)) ∧
    (∀ attr, buildAttrVal [("menu_config", PyClass.mk "MenuConfig" [])] attr
        Yaml.ynull = some (CVal.raw Yaml.ynull)) ∧
    (∀ T, lookupReg [("menu_config", PyClass.mk "MenuConfig" [])]
          ("menu" ++ CONFIG_SUFFIX) = some T →
      initNode [("menu_config", PyClass.mk "MenuConfig" [])]
          ("menu" ++ CONFIG_SUFFIX)
        = (some ("menu" ++ CONFIG_SUFFIX), T.initAttrs)) ∧
    (lookupReg [("menu_config", PyClass.mk "MenuConfig" [])]
          ("menu" ++ CONFIG_SUFFIX) = none →
      initNode [("menu_config", PyClass.mk "MenuConfig" [])]
          ("menu" ++ CONFIG_SUFFIX) = (none, [])) :=
  C4_null_placeholder_amended [("menu_config", PyClass.mk "MenuConfig" [])]
    [("menu", Yaml.ynull)] "menu"
    (CVal.node none [("menu", CVal.node (some "menu_config") [])])
    (by simp) (by simp) rfl

/-! ## Claim C5 -/

/-- C5: the instantiation engine is *not* exception-free — a plural-named key
mapping to an empty sequence inside a nested mapping evaluates `vals[0]`
before `hasattr` can guard it and raises `IndexError`
(`{"outer": {"tables": []}}`). -/
theorem C5_empty_plural_sequence_raises :
    instantiate_configs_in_dict []
      [("outer", Yaml.ymap [("tables", Yaml.ylist [])])] none = none := rfl

/-! ## Claim C6 -/

/-- C6: `iterate_down_to` returns the single matched value when the traversal
finds exactly one occurrence of the terminal key, the ordered list of all
matches (in the order the traversal appends them) when there are several, and
`None` when there are none; and on the spec's example document all four
quoted evaluations hold. -/
theorem C6_path_walk_contract :
    (∀ (d : Yaml) (args : List String) (x : Yaml),
      walkMatches d args = [x] → iterate_down_to d args = .one x) ∧
    (∀ (d : Yaml) (args : List String),
      walkMatches d args = [] → iterate_down_to d args = .nothing) ∧
    (∀ (d : Yaml) (args : List String),
      2 ≤ (walkMatches d args).length →
        iterate_down_to d args = .many (walkMatches d args)) ∧
    iterate_down_to pathWalkDoc ["yolo"] = .one (.ystr "v") ∧
    iterate_down_to pathWalkDoc ["brolo", "nested_key"] = .one (.ystr "nv") ∧
    iterate_down_to pathWalkDoc ["brolo", "nonexistent"] = .nothing ∧
    iterate_down_to pathWalkDoc ["brolo", "nested_list", "key"]
      = .many [.ystr "a", .ystr "b"] := by
  refine ⟨?_, ?_, ?_, rfl, rfl, rfl, rfl⟩
  · intro d args x h
    simp only [iterate_down_to, h]
  · intro d args h
    simp only [iterate_down_to, h]
  · intro d args h
    simp only [iterate_down_to]
    cases hm : walkMatches d args with
    | nil => rw [hm] at h; cases h
    | cons a rest =>
      cases rest with
      | nil => rw [hm] at h; cases h with | step h2 => cases h2
      | cons b r2 => rfl

/-- Witness for C6: the zero-match case discharged on the example document. -/
theorem C6_path_walk_contract_witness :
    iterate_down_to pathWalkDoc ["brolo", "nonexistent"] = .nothing :=
  C6_path_walk_contract.2.1 pathWalkDoc ["brolo", "nonexistent"] rfl

/-! ## Claim C10 -/

/-- C10: applying `register_config` directly to a class (no-parentheses
decorator use) registers nothing: the registry is returned unchanged and the
value produced is the inner `wrapper` function, never the class; an entry is
added only when `register_config` is called without a class and the wrapper
it returns is then applied to the class — under `'root'` when `root=True`,
else under the class's snake-case name, after which the class can be looked
up. -/
theorem C10_direct_decoration_registers_nothing
    (cls : PyClass) (root : Bool) (reg : Registry) :
    register_config (some cls) root reg = (reg, RegResult.wrapperFn root) ∧
    (∀ c, RegResult.wrapperFn root ≠ RegResult.classResult c) ∧
    register_config none root reg = (reg, RegResult.wrapperFn root) ∧
    wrapper_apply false cls reg
      = (setReg reg cls.get_name cls, RegResult.classResult cls) ∧
    wrapper_apply true cls reg
      = (setReg reg "root" cls, RegResult.classResult cls) ∧
    lookupReg (setReg reg cls.get_name cls) cls.get_name = some cls :=
  ⟨rfl, fun _ h => RegResult.noConfusion h, rfl, rfl, rfl,
    lookupReg_setReg_self reg cls.get_name cls⟩

/-! ## Claim C7: character-level lemmas -/

theorem char_toNat_ofNat_valid (n : Nat) (h : n.isValidChar) :
    (Char.ofNat n).toNat = n := by
  unfold Char.ofNat
  rw [dif_pos h]
  rfl

theorem isUpper_toNat (c : Char) :
    c.isUpper = (65 ≤ c.toNat && c.toNat ≤ 90) := by
  simp only [Char.isUpper, Char.toNat, UInt32.le_def, BitVec.le_def,
    UInt32.toNat, ge_iff_le]
  norm_num

theorem isLower_toNat (c : Char) :
    c.isLower = (97 ≤ c.toNat && c.toNat ≤ 122) := by
  simp only [Char.isLower, Char.toNat, UInt32.le_def, BitVec.le_def,
    UInt32.toNat, ge_iff_le]
  norm_num

theorem toLower_eq_of_not_upper (c : Char)
    (h : ¬(c.toNat ≥ 65 ∧ c.toNat ≤ 90)) : c.toLower = c := by
  unfold Char.toLower
  rw [if_neg h]

theorem toLower_toNat_of_upper (c : Char)
    (h : 65 ≤ c.toNat ∧ c.toNat ≤ 90) : c.toLower.toNat = c.toNat + 32 := by
  unfold Char.toLower
  rw [if_pos ⟨h.1, h.2⟩, char_toNat_ofNat_valid]
  exact Or.inl (by omega)

theorem toLower_ne_of_upper (c : Char) (h : c.isUpper = true) :
    ¬c.toLower = c := by
  rw [isUpper_toNat] at h
  simp only [Bool.and_eq_true, decide_eq_true_eq] at h
  intro he
  have := toLower_toNat_of_upper c h
  rw [he] at this
  omega

theorem toLower_eq_of_lower (c : Char) (h : c.isLower = true) :
    c.toLower = c := by
  rw [isLower_toNat] at h
  simp only [Bool.and_eq_true, decide_eq_true_eq] at h
  exact toLower_eq_of_not_upper c (by omega)

theorem isUpper_false_of_lower (c : Char) (h : c.isLower = true) :
    c.isUpper = false := by
  rw [isLower_toNat] at h
  simp only [Bool.and_eq_true, decide_eq_true_eq] at h
  rw [isUpper_toNat]
  simp only [Bool.and_eq_false_iff, decide_eq_false_iff_not]
  right
  omega

theorem isAlpha_of_upper (c : Char) (h : c.isUpper = true) :
    c.isAlpha = true := by
  simp [Char.isAlpha, h]

theorem isAlpha_of_lower (c : Char) (h : c.isLower = true) :
    c.isAlpha = true := by
  simp [Char.isAlpha, h]

theorem snakeBody_append (u v : List Char) :
    snakeBody (u ++ v) = snakeBody u ++ snakeBody v := by
  induction u with
  | nil => rfl
  | cons c cs ih => simp [snakeBody, ih]

theorem is_snake_case_false_of_upper (s : String) (c : Char)
    (hc : c ∈ s.data) (hup : c.isUpper = true) : is_snake_case s = false := by
  have hall : s.data.all (fun x => x.toLower = x) = false := by
    rw [List.all_eq_false]
    exact ⟨c, hc, by simpa using toLower_ne_of_upper c hup⟩
  simp [is_snake_case, hall]

theorem pyIsUpper_false_of_lower (s : String) (c : Char)
    (hc : c ∈ s.data) (hlow : c.isLower = true) : pyIsUpper s = false := by
  have hall : s.data.all (fun x => !x.isAlpha || x.isUpper) = false := by
    rw [List.all_eq_false]
    refine ⟨c, hc, ?_⟩
    simp [isAlpha_of_lower c hlow, isUpper_false_of_lower c hlow]
  simp [pyIsUpper, hall]

theorem pyIsUpper_true_of_all_upper (s : String) (hne : s.data ≠ [])
    (h : ∀ c ∈ s.data, c.isUpper = true) : pyIsUpper s = true := by
  have hany : s.data.any (fun x => x.isAlpha) = true := by
    cases hd : s.data with
    | nil => exact absurd hd hne
    | cons c cs =>
      rw [List.any_cons]
      have := isAlpha_of_upper c (h c (by rw [hd]; exact List.mem_cons_self c cs))
      simp [this]
  have hall : s.data.all (fun x => !x.isAlpha || x.isUpper) = true := by
    rw [List.all_eq_true]
    intro c hc
    simp [h c hc]
  simp [pyIsUpper, hany, hall]

theorem change_to_snake_case_body (s : String) (c : Char) (cs : List Char)
    (h1 : is_snake_case s = false) (h2 : pyIsUpper s = false)
    (hdata : s.data = c :: cs) :
    change_to_snake_case s = String.mk (c.toLower :: snakeBody cs) := by
  unfold change_to_snake_case
  rw [h1, h2]
  simp only [Bool.false_eq_true, if_false, hdata]

/-- C7 counterexample: the uppercase run `ABC` inside `ABCx` is *not*
lower-cased as one unit: `change_to_snake_case "ABCx" = "a_b_cx"`, and the
unit-lowering `abc` of the run appears nowhere contiguously in the output —
the run has been split letter by letter. -/
theorem C7_uppercase_run_counterexample :
    change_to_snake_case "ABCx" = "a_b_cx" ∧
    containsSeq "abc".data "a_b_cx".data = false :=
  ⟨rfl, rfl⟩

/-- C7 amended: `change_to_snake_case` lower-cases with underscores such that
a single uppercase letter preceded by a lowercase letter starts a new word,
and an identifier that is *entirely* uppercase is lower-cased as one unit;
but inside a mixed-case identifier every uppercase letter after the first
character starts a new word, so interior uppercase runs are split letter by
letter (see the counterexample). In particular `camelCase ↦ camel_case`,
`PascalCase ↦ pascal_case`, `UPPERCASE ↦ uppercase`, `ABCx ↦ a_b_cx`. -/
theorem C7_snake_case_amended :
    change_to_snake_case "camelCase" = "camel_case" ∧
    change_to_snake_case "PascalCase" = "pascal_case" ∧
    change_to_snake_case "UPPERCASE" = "uppercase" ∧
    (∀ s : String, s.data ≠ [] → (∀ c ∈ s.data, c.isUpper = true) →
      change_to_snake_case s = to_lower s) ∧
    (∀ (p q : List Char) (a b : Char), a.isLower = true → b.isUpper = true →
      List.IsInfix [a, '_', b.toLower]
        (change_to_snake_case (String.mk (p ++ a :: b :: q))).data) ∧
    change_to_snake_case "ABCx" = "a_b_cx" := by
  refine ⟨rfl, rfl, rfl, ?_, ?_, rfl⟩
  · intro s hne h
    cases hd : s.data with
    | nil => exact absurd hd hne
    | cons c cs =>
      have h1 : is_snake_case s = false :=
        is_snake_case_false_of_upper s c (by rw [hd]; exact List.mem_cons_self c cs)
          (h c (by rw [hd]; exact List.mem_cons_self c cs))
      have h2 : pyIsUpper s = true := pyIsUpper_true_of_all_upper s hne h
      unfold change_to_snake_case
      rw [h1, h2]
      simp
  · intro p q a b ha hb
    have hdata : (String.mk (p ++ a :: b :: q)).data = p ++ a :: b :: q := rfl
    have hbmem : b ∈ (String.mk (p ++ a :: b :: q)).data := by
      rw [hdata]; simp
    have hamem : a ∈ (String.mk (p ++ a :: b :: q)).data := by
      rw [hdata]; simp
    have h1 := is_snake_case_false_of_upper _ b hbmem hb
    have h2 := pyIsUpper_false_of_lower _ a hamem ha
    have hab : snakeBody (a :: b :: q)
        = a :: '_' :: b.toLower :: snakeBody q := by
      simp [snakeBody, isUpper_false_of_lower a ha, hb]
    cases p with
    | nil =>
      rw [change_to_snake_case_body _ a (b :: q) h1 h2 hdata]
      refine ⟨[], snakeBody q, ?_⟩
      show [a, '_', b.toLower] ++ snakeBody q = _
      have : (String.mk (a.toLower :: snakeBody (b :: q))).data
          = a.toLower :: snakeBody (b :: q) := rfl
      rw [this, toLower_eq_of_lower a ha]
      simp [snakeBody, hb]
    | cons c p2 =>
      rw [change_to_snake_case_body _ c (p2 ++ a :: b :: q) h1 h2 hdata]
      refine ⟨c.toLower :: snakeBody p2, snakeBody q, ?_⟩
      have : (String.mk (c.toLower :: snakeBody (p2 ++ a :: b :: q))).data
          = c.toLower :: snakeBody (p2 ++ a :: b :: q) := rfl
      rw [this, snakeBody_append, hab]
      simp

/-- Witness for C7 (amended): the all-uppercase clause at `AB` and the
word-boundary clause at `aB`. -/
theorem C7_snake_case_amended_witness :
    change_to_snake_case "AB" = to_lower "AB" ∧
    List.IsInfix ['a', '_', 'B'.toLower]
      (change_to_snake_case (String.mk ([] ++ 'a' :: 'B' :: []))).data :=
  ⟨C7_snake_case_amended.2.2.2.1 "AB" (by decide) (by decide),
   C7_snake_case_amended.2.2.2.2.1 [] [] 'a' 'B' (by decide) (by decide)⟩

/-! ## Claim C9: parsing the `AttributeError` message back -/

theorem findQuoted_append_clean (xs ys : List Char) (h : '\'' ∉ xs) :
    findQuoted (xs ++ ys) = findQuoted ys := by
  induction xs with
  | nil => rfl
  | cons c cs ih =>
    have hc : ¬c = '\'' := fun e => h (e ▸ List.mem_cons_self c cs)
    simp only [List.cons_append, findQuoted, if_neg hc]
    exact ih (fun hm => h (List.mem_cons_of_mem c hm))

theorem grabQuoted_append_clean (xs ys : List Char) (h : '\'' ∉ xs) :
    ∀ acc, grabQuoted (xs ++ '\'' :: ys) acc
      = String.mk (acc.reverse ++ xs) :: findQuoted ys := by
  induction xs with
  | nil =>
    intro acc
    simp [grabQuoted]
  | cons c cs ih =>
    intro acc
    have hc : ¬c = '\'' := fun e => h (e ▸ List.mem_cons_self c cs)
    have hstep : grabQuoted ((c :: cs) ++ '\'' :: ys) acc
        = grabQuoted (cs ++ '\'' :: ys) (c :: acc) := by
      simp only [List.cons_append, grabQuoted, if_neg hc, List.append_eq]
    rw [hstep, ih (fun hm => h (List.mem_cons_of_mem c hm)) (c :: acc)]
    simp

theorem get_erroring_attr_attrErrorMsg (clsName name : String)
    (hqc : '\'' ∉ clsName.data) (hqn : '\'' ∉ name.data) :
    get_erroring_attr (attrErrorMsg clsName name) = some name := by
  have hmid : '\'' ∉ (" object has no attribute " : String).data := by decide
  have hdata : (attrErrorMsg clsName name).data
      = '\'' :: (clsName.data ++ '\''
          :: ((" object has no attribute " : String).data ++ '\''
            :: (name.data ++ ['\'']))) := by
    simp [attrErrorMsg, String.data_append]
  unfold get_erroring_attr parse_attr_error_message
  rw [hdata]
  simp only [findQuoted, if_pos rfl]
  rw [grabQuoted_append_clean clsName.data _ hqc []]
  rw [findQuoted_append_clean _ _ hmid]
  simp only [findQuoted, if_pos rfl]
  have hlast : name.data ++ ['\''] = name.data ++ '\'' :: ([] : List Char) := rfl
  rw [hlast, grabQuoted_append_clean name.data [] hqn []]
  simp [findQuoted]

/-- C9: For every `Config` node and attribute name not present on it,
attribute access raises (never returns a value): when the node has at least
one attribute, an enriched error carrying the requested name and the
best-ranked fuzzy match over the existing attribute names — no closeness
threshold, any ranking admitted through `CloseSpec` — is raised; when the
node has no attributes at all, the config-probably-improperly-loaded warning
is emitted and the original error re-raised. In particular a node with sole
attribute `foobar`, asked for `foo`, raises a message that contains both
`foo` and the suggestion `foobar`. (The embedding is pure, so the node's
attributes are unchanged by construction.) -/
theorem C9_attribute_miss_diagnostic
    (close : String → List String → List String) (hclose : CloseSpec close)
    (clsName name : String) (attrs : List (String × CVal))
    (hmiss : lookupAttr attrs name = none)
    (hqc : '\'' ∉ clsName.data) (hqn : '\'' ∉ name.data)
    (hne : ∀ p ∈ attrs, p.1 ≠ "") :
    (∀ v, config_getattr close clsName attrs name ≠ .found v) ∧
    (attrs = [] →
      config_getattr close clsName attrs name
        = .errNoAttrs no_attrs_warning (attrErrorMsg clsName name)) ∧
    (attrs ≠ [] →
      ∃ m, m ∈ attrs.map (fun p => p.1) ∧
        config_getattr close clsName attrs name
          = .errEnriched (did_you_mean_msg name m)) ∧
    (∀ v0, config_getattr close "Config" [("foobar", v0)] "foo"
      = .errEnriched (did_you_mean_msg "foo" "foobar")) ∧
    containsSeq "foo".data (did_you_mean_msg "foo" "foobar").data = true ∧
    containsSeq "foobar".data (did_you_mean_msg "foo" "foobar").data
      = true := by
  have hparse := get_erroring_attr_attrErrorMsg clsName name hqc hqn
  have hfoobar : ∀ v0 : CVal,
      config_getattr close "Config" [("foobar", v0)] "foo"
        = .errEnriched (did_you_mean_msg "foo" "foobar") := by
    intro v0
    have hp := get_erroring_attr_attrErrorMsg "Config" "foo"
      (by decide) (by decide)
    have hcl : close "foo" ["foobar"] = ["foobar"] := by
      have hlen := hclose.length_eq "foo" ["foobar"]
      cases hc : close "foo" ["foobar"] with
      | nil => rw [hc] at hlen; cases hlen
      | cons m rest =>
        have hm : m ∈ ["foobar"] :=
          hclose.mem_sub "foo" ["foobar"] m (by rw [hc]; simp)
        have hm2 : m = "foobar" := by simpa using hm
        cases rest with
        | nil => rw [hm2]
        | cons m2 r2 =>
          rw [hc] at hlen
          simp [List.length_cons] at hlen
    unfold config_getattr
    simp only [lookupAttr, if_neg (by decide : ¬("foobar" : String) = "foo")]
    rw [hp]
    simp only [List.map_cons, List.map_nil, hcl]
    rfl
  refine ⟨?_, ?_, ?_, hfoobar, rfl, rfl⟩
  · intro v
    unfold config_getattr
    rw [hmiss]
    simp only [hparse]
    cases close name (attrs.map (fun p => p.1)) with
    | nil => exact fun h => GetattrResult.noConfusion h
    | cons m rest =>
      by_cases hm : m.data.isEmpty = true
      · simp only [hm, if_pos rfl]
        exact fun h => GetattrResult.noConfusion h
      · simp only [if_neg hm]
        exact fun h => GetattrResult.noConfusion h
  · intro hempty
    subst hempty
    unfold config_getattr
    rw [hmiss]
    simp only [hparse, List.map_nil]
    have h0 := hclose.length_eq name []
    cases hc : close name ([] : List String) with
    | cons m rest => rw [hc] at h0; cases h0
    | nil => rfl
  · intro hne2
    unfold config_getattr
    rw [hmiss]
    simp only [hparse]
    have hlen := hclose.length_eq name (attrs.map (fun p => p.1))
    cases hc : close name (attrs.map (fun p => p.1)) with
    | nil =>
      rw [hc] at hlen
      cases attrs with
      | nil => exact absurd rfl hne2
      | cons a r =>
        simp only [List.length_nil, List.length_map, List.length_cons] at hlen
        omega
    | cons m rest =>
      have hmem : m ∈ attrs.map (fun p => p.1) :=
        hclose.mem_sub name _ m (by rw [hc]; simp)
      have hmne : m ≠ "" := by
        obtain ⟨p, hp, hpm⟩ := List.mem_map.mp hmem
        exact hpm ▸ hne p hp
      have hdm : ¬m.data.isEmpty = true := by
        cases m with
        | mk d =>
          cases d with
          | nil => exact absurd rfl hmne
          | cons c cs => simp [List.isEmpty]
      refine ⟨m, hmem, ?_⟩
      simp only [if_neg hdm]

/-- Witness for C9: the `foo`/`foobar` instance with the concrete ranking
`closeTake3`. -/
theorem C9_attribute_miss_diagnostic_witness :
    config_getattr closeTake3 "Config" [("foobar", CVal.raw Yaml.ynull)] "foo"
      = .errEnriched (did_you_mean_msg "foo" "foobar") :=
  (C9_attribute_miss_diagnostic closeTake3
    ⟨fun w ps => by simp [closeTake3, List.length_take],
     fun w ps x hx => List.mem_of_mem_take hx⟩
    "Config" "foo" [("foobar", CVal.raw Yaml.ynull)]
    rfl (by decide) (by decide)
    (by intro p hp; simp only [List.mem_singleton] at hp; rw [hp]; decide)).2.2.2.1
    (CVal.raw Yaml.ynull)

/-! ## Claim C8: good-tree round-trip lemmas -/

theorem lookupReg_mem (reg : Registry) (c : String) (T : PyClass)
    (h : lookupReg reg c = some T) : ∃ k0, (k0, T) ∈ reg := by
  induction reg with
  | nil => cases h
  | cons p rest ih =>
    cases p with
    | mk k1 c1 =>
      by_cases hp : k1 = c
      · simp only [lookupReg, if_pos hp] at h
        cases h
        exact ⟨k1, List.mem_cons_self _ _⟩
      · simp only [lookupReg, if_neg hp] at h
        obtain ⟨k0, hk⟩ := ih h
        exact ⟨k0, List.mem_cons_of_mem _ hk⟩

theorem initNode_snd_clean (reg : Registry) (hreg : RegClean reg)
    (c : String) : (initNode reg c).2 = [] := by
  unfold initNode
  cases h : lookupReg reg c with
  | none => rfl
  | some T =>
    obtain ⟨k0, hk⟩ := lookupReg_mem reg c T h
    simpa using hreg (k0, T) hk

theorem isStrVal_eq (v : CVal) (h : isStrVal v = true) :
    ∃ s, v = CVal.raw (Yaml.ystr s) := by
  cases v with
  | raw y =>
    cases y with
    | ystr s => exact ⟨s, rfl⟩
    | ynull => cases h
    | yint n => cases h
    | ybool b => cases h
    | ylist xs => cases h
    | ymap kvs => cases h
  | node ty as => cases h
  | nodes cs => cases h

theorem map_replace_id (k : String) (v : CVal) :
    ∀ l : List (String × CVal), (∀ q ∈ l, ¬q.1 = k) →
      l.map (fun p => if p.1 = k then (k, v) else p) = l := by
  intro l
  induction l with
  | nil => intro _; rfl
  | cons q r ih =>
    intro hl
    rw [List.map_cons, if_neg (hl q (List.mem_cons_self q r)),
      ih (fun q2 hq2 => hl q2 (List.mem_cons_of_mem q hq2))]

theorem setAttr_head_eq (k : String) (c v : CVal)
    (cs : List (String × CVal)) (h : ∀ q ∈ cs, ¬q.1 = k) :
    setAttr ((k, c) :: cs) k v = (k, v) :: cs := by
  have hany : ((k, c) :: cs).any (fun p => p.1 = k) = true := by
    simp [List.any_cons]
  simp only [setAttr, hany, if_true, List.map_cons, if_pos rfl]
  congr 1
  exact map_replace_id k v cs h

theorem overlayStrings_cons_notin (orig : List (String × CVal)) :
    ∀ (k : String) (w : CVal) (cs : List (String × CVal)),
      (∀ p ∈ orig, ¬p.1 = k) →
      overlayStrings orig ((k, w) :: cs) = (k, w) :: overlayStrings orig cs := by
  induction orig with
  | nil => intro k w cs _; rfl
  | cons p rest ih =>
    intro k w cs h
    simp only [overlayStrings]
    by_cases hs : isStrVal p.2 = true
    · simp only [if_pos hs]
      rw [setAttr_cons_ne (k, w) cs p.1 p.2
          (fun e => h p (List.mem_cons_self p rest) e.symm)]
      exact ih k w _ (fun q hq => h q (List.mem_cons_of_mem p hq))
    · simp only [if_neg hs]
      exact ih k w cs (fun q hq => h q (List.mem_cons_of_mem p hq))

theorem renderReady_keys (orig cs : List (String × CVal))
    (h : List.Forall₂ renderReady orig cs) :
    cs.map Prod.fst = orig.map Prod.fst := by
  induction h with
  | nil => rfl
  | cons hpq _ ih => simp [ih, hpq.1]

theorem fieldEquivAttrs_keys :
    ∀ (as bs : List (String × CVal)), fieldEquivAttrs as bs = true →
      as.map Prod.fst = bs.map Prod.fst := by
  intro as
  induction as with
  | nil =>
    intro bs h
    cases bs with
    | nil => rfl
    | cons b r => cases h
  | cons a r ih =>
    intro bs h
    cases bs with
    | nil => cases h
    | cons b r2 =>
      cases a with
      | mk k v =>
        cases b with
        | mk k2 v2 =>
          simp only [fieldEquivAttrs, Bool.and_eq_true] at h
          obtain ⟨⟨hk, _⟩, hr⟩ := h
          simp only [List.map_cons]
          rw [eq_of_beq hk, ih r2 hr]

mutual

theorem buildVal_of_good (reg : Registry) (hreg : RegClean reg)
    (k : String) (v : CVal) (hv : goodVal v = true) :
    ∃ cv, buildAttrVal reg k (convertVal v) = some cv ∧
      fieldEquiv cv v = true := by
  cases v with
  | raw y =>
    cases y with
    | ystr s =>
      refine ⟨CVal.raw (Yaml.ystr s), rfl, ?_⟩
      simp [fieldEquiv, yamlBeq]
    | ynull => simp [goodVal] at hv
    | yint n => simp [goodVal] at hv
    | ybool b => simp [goodVal] at hv
    | ylist xs => simp [goodVal] at hv
    | ymap kvs => simp [goodVal] at hv
  | node ty2 as =>
    have hgood : goodAttrs as = true := by simpa [goodVal] using hv
    have hst : (initNode reg (k ++ CONFIG_SUFFIX)).2 = [] :=
      initNode_snd_clean reg hreg _
    obtain ⟨bs, hbs, heq⟩ :=
      buildInto_of_good reg hreg as [] hgood (fun p _ => rfl)
    rw [List.nil_append] at hbs
    refine ⟨CVal.node (initNode reg (k ++ CONFIG_SUFFIX)).1 bs, ?_, ?_⟩
    · show buildAttrVal reg k (Yaml.ymap (convertAttrs as)) = _
      simp only [buildAttrVal, Option.bind_eq_bind]
      rw [hst, hbs]
      rfl
    · simpa [fieldEquiv] using heq
  | nodes cs => simp [goodVal] at hv

theorem buildInto_of_good (reg : Registry) (hreg : RegClean reg)
    (as acc : List (String × CVal)) (hgood : goodAttrs as = true)
    (hdis : ∀ p ∈ as, acc.any (fun q => q.1 = p.1) = false) :
    ∃ bs, buildInto reg acc (convertAttrs as) = some (acc ++ bs) ∧
      fieldEquivAttrs bs as = true := by
  cases as with
  | nil => exact ⟨[], by simp [convertAttrs, buildInto], rfl⟩
  | cons p rest =>
    cases p with
    | mk k v =>
      simp only [goodAttrs, Bool.and_eq_true] at hgood
      obtain ⟨⟨⟨hund, hnodup⟩, hval⟩, hrest⟩ := hgood
      obtain ⟨cv, hcv, hcveq⟩ := buildVal_of_good reg hreg k v hval
      have hkacc : acc.any (fun q => q.1 = k) = false :=
        hdis (k, v) (List.mem_cons_self _ _)
      have hset : setAttr acc k cv = acc ++ [(k, cv)] :=
        setAttr_not_mem acc k cv hkacc
      have hdis2 : ∀ p2 ∈ rest,
          (acc ++ [(k, cv)]).any (fun q => q.1 = p2.1) = false := by
        intro p2 hp2
        rw [List.any_append]
        have h1 : acc.any (fun q => q.1 = p2.1) = false :=
          hdis p2 (List.mem_cons_of_mem _ hp2)
        have hnodup0 : rest.any (fun p => p.1 = k) = false := by
          cases hb : rest.any (fun p => p.1 = k)
          · rfl
          · rw [hb] at hnodup; cases hnodup
        have hkp : ¬k = p2.1 := by
          intro e
          have := List.any_eq_false.mp hnodup0 p2 hp2
          simp at this
          exact this e.symm
        simp [h1, hkp]
      obtain ⟨bs2, hbs2, heq2⟩ :=
        buildInto_of_good reg hreg rest (acc ++ [(k, cv)]) hrest hdis2
      refine ⟨(k, cv) :: bs2, ?_, ?_⟩
      · have hund2 : startsUnderscore k = false := by
          cases hb : startsUnderscore k
          · rfl
          · rw [hb] at hund; cases hund
        have hconv : convertAttrs ((k, v) :: rest)
            = (k, convertVal v) :: convertAttrs rest := by
          simp only [convertAttrs, hund2, Bool.false_eq_true, if_false]
        rw [hconv]
        simp only [buildInto, Option.bind_eq_bind]
        rw [hcv]
        simp only [Option.some_bind]
        rw [hset, hbs2, List.append_assoc]
        rfl
      · simp only [fieldEquivAttrs, Bool.and_eq_true]
        exact ⟨⟨beq_self_eq_true k, hcveq⟩, heq2⟩

end

theorem topVal_render_of_good (reg : Registry) (hreg : RegClean reg)
    (k : String) (v : CVal) (hv : goodVal v = true) :
    ∃ cv, topValFor reg k (convertVal v) = some cv ∧
      renderReady (k, v) (k, cv) := by
  cases v with
  | raw y =>
    cases y with
    | ystr s =>
      exact ⟨CVal.node (initNode reg (k ++ CONFIG_SUFFIX)).1
        (initNode reg (k ++ CONFIG_SUFFIX)).2, rfl, rfl, Or.inl rfl⟩
    | ynull => simp [goodVal] at hv
    | yint n => simp [goodVal] at hv
    | ybool b => simp [goodVal] at hv
    | ylist xs => simp [goodVal] at hv
    | ymap kvs => simp [goodVal] at hv
  | node ty2 as =>
    have hgood : goodAttrs as = true := by simpa [goodVal] using hv
    have hst : (initNode reg (k ++ CONFIG_SUFFIX)).2 = [] :=
      initNode_snd_clean reg hreg _
    obtain ⟨bs, hbs, heq⟩ :=
      buildInto_of_good reg hreg as [] hgood (fun p _ => rfl)
    rw [List.nil_append] at hbs
    refine ⟨CVal.node (initNode reg (k ++ CONFIG_SUFFIX)).1 bs, ?_, rfl,
      Or.inr ?_⟩
    · show topValFor reg k (Yaml.ymap (convertAttrs as)) = _
      simp only [topValFor, Option.bind_eq_bind]
      rw [hst, hbs]
      rfl
    · simpa [fieldEquiv] using heq
  | nodes cs => simp [goodVal] at hv

theorem instantiateTop_render_of_good (reg : Registry) (hreg : RegClean reg) :
    ∀ (as acc : List (String × CVal)) (t : Option String),
      goodAttrs as = true →
      (∀ p ∈ as, acc.any (fun q => q.1 = p.1) = false) →
      ∃ cs, instantiateTop reg (t, acc) (convertAttrs as)
          = some (t, acc ++ cs) ∧
        List.Forall₂ renderReady as cs := by
  intro as
  induction as with
  | nil =>
    intro acc t _ _
    exact ⟨[], by simp [convertAttrs, instantiateTop], List.Forall₂.nil⟩
  | cons p rest ih =>
    intro acc t hgood hdis
    cases p with
    | mk k v =>
      simp only [goodAttrs, Bool.and_eq_true] at hgood
      obtain ⟨⟨⟨hund, hnodup⟩, hval⟩, hrest⟩ := hgood
      obtain ⟨cv, hcv, hready⟩ := topVal_render_of_good reg hreg k v hval
      have hkacc : acc.any (fun q => q.1 = k) = false :=
        hdis (k, v) (List.mem_cons_self _ _)
      have hset : setAttr acc k cv = acc ++ [(k, cv)] :=
        setAttr_not_mem acc k cv hkacc
      have hnodup0 : rest.any (fun p2 => p2.1 = k) = false := by
        cases hb : rest.any (fun p2 => p2.1 = k)
        · rfl
        · rw [hb] at hnodup; cases hnodup
      have hdis2 : ∀ p2 ∈ rest,
          (acc ++ [(k, cv)]).any (fun q => q.1 = p2.1) = false := by
        intro p2 hp2
        rw [List.any_append]
        have h1 : acc.any (fun q => q.1 = p2.1) = false :=
          hdis p2 (List.mem_cons_of_mem _ hp2)
        have hkp : ¬k = p2.1 := by
          intro e
          have := List.any_eq_false.mp hnodup0 p2 hp2
          simp at this
          exact this e.symm
        simp [h1, hkp]
      obtain ⟨cs2, hcs2, hrel2⟩ := ih (acc ++ [(k, cv)]) t hrest hdis2
      refine ⟨(k, cv) :: cs2, ?_, List.Forall₂.cons hready hrel2⟩
      have hund2 : startsUnderscore k = false := by
        cases hb : startsUnderscore k
        · rfl
        · rw [hb] at hund; cases hund
      have hconv : convertAttrs ((k, v) :: rest)
          = (k, convertVal v) :: convertAttrs rest := by
        simp only [convertAttrs, hund2, Bool.false_eq_true, if_false]
      rw [hconv]
      simp only [instantiateTop, Option.bind_eq_bind]
      rw [hcv]
      simp only [Option.some_bind]
      rw [hset, hcs2, List.append_assoc]
      rfl

theorem overlay_equiv :
    ∀ (orig cs : List (String × CVal)),
      goodAttrs orig = true →
      List.Forall₂ renderReady orig cs →
      fieldEquivAttrs (overlayStrings orig cs) orig = true := by
  intro orig
  induction orig with
  | nil =>
    intro cs _ hrel
    cases hrel
    rfl
  | cons p rest ih =>
    intro cs hgood hrel
    cases p with
    | mk k v =>
      cases hrel with
      | cons hpq hrel2 =>
        rename_i q cs2
        cases q with
        | mk k2 c =>
          have hk2 : k = k2 := hpq.1.symm
          subst hk2
          simp only [goodAttrs, Bool.and_eq_true] at hgood
          obtain ⟨⟨⟨hund, hnodup⟩, hval⟩, hrest⟩ := hgood
          have hnodup0 : rest.any (fun p2 => p2.1 = k) = false := by
            cases hb : rest.any (fun p2 => p2.1 = k)
            · rfl
            · rw [hb] at hnodup; cases hnodup
          have hnotin_rest : ∀ p2 ∈ rest, ¬p2.1 = k := by
            intro p2 hp2
            have := List.any_eq_false.mp hnodup0 p2 hp2
            simpa using this
          have hkeys : cs2.map Prod.fst = rest.map Prod.fst :=
            renderReady_keys rest cs2 hrel2
          have hnotin_cs2 : ∀ q2 ∈ cs2, ¬q2.1 = k := by
            intro q2 hq2 he
            have hmem : q2.1 ∈ cs2.map Prod.fst :=
              List.mem_map_of_mem Prod.fst hq2
            rw [hkeys] at hmem
            obtain ⟨p2, hp2, hp2e⟩ := List.mem_map.mp hmem
            exact hnotin_rest p2 hp2 (hp2e.trans he)
          simp only [overlayStrings]
          by_cases hs : isStrVal v = true
          · simp only [if_pos hs]
            rw [setAttr_head_eq k c v cs2 hnotin_cs2,
              overlayStrings_cons_notin rest k v cs2 hnotin_rest]
            simp only [fieldEquivAttrs, Bool.and_eq_true]
            obtain ⟨s, rfl⟩ := isStrVal_eq v hs
            exact ⟨⟨beq_self_eq_true k, by simp [fieldEquiv, yamlBeq]⟩,
              ih cs2 hrest hrel2⟩
          · simp only [if_neg hs]
            rw [overlayStrings_cons_notin rest k c cs2 hnotin_rest]
            simp only [fieldEquivAttrs, Bool.and_eq_true]
            have hcv : fieldEquiv c v = true := by
              rcases hpq.2 with h1 | h1
              · exact absurd h1 hs
              · exact h1
            exact ⟨⟨beq_self_eq_true k, hcv⟩, ih cs2 hrest hrel2⟩

/-! ## Claim C8 -/

/-- C8 counterexample: a node whose only attribute is the integer `3` — no
template placeholder anywhere in the tree — does not round-trip through
`render_config_args`: the rendered node holds an empty generic `Config` where
the original held `3`, so the output is not field-for-field equal to the
input. -/
theorem C8_render_round_trip_counterexample :
    render_config_args [] (none, [("count", CVal.raw (Yaml.yint 3))])
      = some (CVal.node none [("count", CVal.node none [])]) ∧
    fieldEquiv (CVal.node none [("count", CVal.node none [])])
      (CVal.node none [("count", CVal.raw (Yaml.yint 3))]) = false :=
  ⟨rfl, rfl⟩

/-- C8 amended: for a node whose attributes — recursively through nested
nodes — are plain placeholder-free strings or nested `Config` nodes, with no
underscore-prefixed and no duplicate names, and a registry whose classes all
construct empty, `render_config_args` returns a node field-for-field equal to
the input: every attribute name is kept, in order, with a recursively equal
value, and no names are added or lost. (Top-level non-string scalars and
lists are *not* preserved — see the counterexample.) -/
theorem C8_render_round_trip_amended
    (reg : Registry) (hreg : RegClean reg) (ty : Option String)
    (attrs : List (String × CVal)) (hgood : goodAttrs attrs = true) :
    ∃ rty rattrs,
      render_config_args reg (ty, attrs) = some (CVal.node rty rattrs) ∧
      fieldEquivAttrs rattrs attrs = true ∧
      rattrs.map Prod.fst = attrs.map Prod.fst := by
  obtain ⟨cs, hcs, hrel⟩ :=
    instantiateTop_render_of_good reg hreg attrs [] none hgood
      (fun p _ => rfl)
  rw [List.nil_append] at hcs
  have hov := overlay_equiv attrs cs hgood hrel
  refine ⟨none, overlayStrings attrs cs, ?_, hov,
    fieldEquivAttrs_keys _ _ hov⟩
  simp only [render_config_args, render_template_step, Option.bind_eq_bind]
  rw [hcs]
  rfl

/-- Witness for C8 (amended): a node with a string attribute and a nested
node attribute round-trips field-for-field. -/
theorem C8_render_round_trip_amended_witness :
    ∃ rty rattrs,
      render_config_args [] (none,
          [("name", CVal.raw (Yaml.ystr "bob")),
           ("sub", CVal.node none [("x", CVal.raw (Yaml.ystr "1"))])])
        = some (CVal.node rty rattrs) ∧
      fieldEquivAttrs rattrs
          [("name", CVal.raw (Yaml.ystr "bob")),
           ("sub", CVal.node none [("x", CVal.raw (Yaml.ystr "1"))])]
        = true ∧
      rattrs.map Prod.fst
        = [("name", CVal.raw (Yaml.ystr "bob")),
           ("sub", CVal.node none
             [("x", CVal.raw (Yaml.ystr "1"))])].map Prod.fst :=
  C8_render_round_trip_amended [] (fun p hp => absurd hp (List.not_mem_nil p))
    none _ rfl

end RapidCLI
